import Mathlib

/-!
Shallow embedding of the strategy sandbox execution engine of
`src/lib/strategy/executor.ts` (repository `iamtxena/live-engine`).

Text is modelled as `List Char` (JavaScript strings are sequences of
code units; the executor only splits on `'\n'`, trims leading
whitespace, tests prefixes and replaces first occurrences, all of
which are faithfully expressed on `List Char`).  JavaScript runtime
values returned by the sandboxed strategy are modelled by the
inductive `JSValue`; numbers are modelled by `Rat` (the executor never
performs arithmetic on strategy return values, so only truthiness and
`typeof` matter there).  Running arbitrary JavaScript text to obtain
its top-level bindings cannot be embedded, so it is abstracted as a
function producing a `StrategyEnv` (which of the three recognised
entry-point names are bound to functions); everything downstream of
that point — the dispatcher, the timeout race, the result validator
and the outer catch — is transliterated from the source.
-/

namespace LiveEngine

/-- JavaScript runtime values, as far as the executor inspects them:
`typeof`, truthiness, property lookup and strict string equality. -/
inductive JSValue where
  | vUndefined : JSValue
  | vNull : JSValue
  | vBool : Bool → JSValue
  | vNum : Rat → JSValue
  | vStr : String → JSValue
  | vObj : List (String × JSValue) → JSValue
  | vFun : Nat → JSValue

/-- JavaScript `typeof` operator on the modelled values.  Note
`typeof null` is the string `"object"`. -/
def typeofJS : JSValue → String
  | JSValue.vUndefined => "undefined"
  | JSValue.vNull => "object"
  | JSValue.vBool _ => "boolean"
  | JSValue.vNum _ => "number"
  | JSValue.vStr _ => "string"
  | JSValue.vObj _ => "object"
  | JSValue.vFun _ => "function"

/-- JavaScript truthiness of the modelled values (`!result` in the
validator).  `null`, `undefined`, `false`, `0` and `""` are falsy;
every object and function is truthy. -/
def truthy : JSValue → Bool
  | JSValue.vUndefined => false
  | JSValue.vNull => false
  | JSValue.vBool b => b
  | JSValue.vNum q => decide (q ≠ 0)
  | JSValue.vStr s => decide (s ≠ "")
  | JSValue.vObj _ => true
  | JSValue.vFun _ => true

/-- Property lookup on an object's field list (JavaScript objects have
unique keys; the first binding wins).  Absent keys give `undefined`. -/
def lookupField : List (String × JSValue) → String → JSValue
  | [], _ => JSValue.vUndefined
  | (k, v) :: rest, key => if k = key then v else lookupField rest key

/-- JavaScript property access `v[key]`, used by the validator as
`result.signal`.  On non-objects it is only ever reached for objects
in the code path; we give `undefined` elsewhere. -/
def getField : JSValue → String → JSValue
  | JSValue.vObj fields, key => lookupField fields key
  | _, _ => JSValue.vUndefined

/-- The literal result object `{ signal: 'hold', reason: r }` built by
the validator and the outer catch. -/
def holdObj (reason : String) : JSValue :=
  JSValue.vObj [("signal", JSValue.vStr "hold"), ("reason", JSValue.vStr reason)]

/-- The membership test `['buy', 'sell', 'hold'].includes(result.signal)`:
`Array.prototype.includes` uses SameValueZero, so only the three exact
strings pass; any non-string value fails. -/
def signalIncluded : JSValue → Bool
  | JSValue.vStr s => s = "buy" || s = "sell" || s = "hold"
  | _ => false

/-- The result-validation tail of `executeStrategy` (executor.ts
lines 135–144): falsy or non-object results are replaced by
`{signal:'hold', reason:'Invalid strategy result'}`, objects whose
`signal` is outside the enumeration by
`{signal:'hold', reason:'Invalid signal value'}`, and well-formed
objects are returned unchanged. -/
def validateResult (result : JSValue) : JSValue :=
  if !(truthy result) || typeofJS result ≠ "object" then
    holdObj "Invalid strategy result"
  else if !(signalIncluded (getField result "signal")) then
    holdObj "Invalid signal value"
  else
    result

/-- A value is a well-formed `StrategyResult` as far as the validator
guarantees: a (truthy) object whose `signal` field is one of the three
enumerated strings. -/
def wellFormedResult (v : JSValue) : Bool :=
  truthy v && typeofJS v = "object" && signalIncluded (getField v "signal")

/-- Position record (`src/lib/types/strategy.ts`). -/
structure Position where
  asset : String
  quantity : Rat
  entry_price : Rat
  current_price : Rat
  pnl : Rat
  pnl_percentage : Rat

/-- One OHLCV candle (`src/lib/types/strategy.ts`; `timestamp` is a
string there). -/
structure CandleData where
  timestamp : String
  open_ : Rat
  high : Rat
  low : Rat
  close : Rat
  volume : Rat

/-- The per-run strategy input (`src/lib/types/strategy.ts`):
candles, current price, optional position and free-form parameters. -/
structure StrategyContext where
  candles : List CandleData
  currentPrice : Rat
  position : Option Position
  parameters : List (String × JSValue)

/-- A strategy entry point: called with the context, it either returns
a raw value or throws (modelled by `Except`). -/
def EntryFn : Type := StrategyContext → Except String JSValue

/-- The top-level bindings the sandboxed source produced that are
relevant to the dispatcher: for each of the three recognised names,
`some f` when the name is defined as a function (the
`typeof name === 'function'` test), `none` when it is undefined or
bound to a non-function. -/
structure StrategyEnv where
  tradingStrategy : Option EntryFn
  evaluate : Option EntryFn
  strategy : Option EntryFn

/-- The error message thrown by the dispatcher when no entry point is
defined (executor.ts line 120). -/
def noEntryPointMessage : String :=
  "No valid strategy function found. Define tradingStrategy, evaluate, or strategy function."

/-- The dispatcher appended to the sanitized source (executor.ts
lines 113–121): try `tradingStrategy`, then `evaluate`, then
`strategy`, calling the first one defined as a function with the
context as sole argument; otherwise throw. -/
def dispatch (env : StrategyEnv) (context : StrategyContext) : Except String JSValue :=
  match env.tradingStrategy with
  | some f => f context
  | none =>
    match env.evaluate with
    | some f => f context
    | none =>
      match env.strategy with
      | some f => f context
      | none => Except.error noEntryPointMessage

/-- The hard-coded timeout budget in milliseconds (executor.ts
line 131: `setTimeout(..., 5000)`); `executeStrategy` exposes no
parameter to change it. -/
def strategyTimeoutMs : Nat := 5000

/-- The error message of the timeout rejection (executor.ts line 131). -/
def timeoutMessage : String := "Strategy execution timeout"

/-- Whitespace characters for `String.prototype.trimStart` and the
regex class `\s` (space, tab, carriage return, line feed, vertical
tab, form feed; the exotic Unicode space characters never appear in
the executor's inputs and are not modelled). -/
def isWS (c : Char) : Bool :=
  c = ' ' || c = '\t' || c = '\r' || c = '\n' || c = '\x0b' || c = '\x0c'

/-- JavaScript `line.trimStart()`: drop leading whitespace. -/
def jsTrimStart (l : List Char) : List Char := l.dropWhile isWS

/-- The leading whitespace removed by `trimStart`. -/
def leadingWS (l : List Char) : List Char := l.takeWhile isWS

/-- JavaScript `String.prototype.startsWith` on character lists. -/
def startsWithL : List Char → List Char → Bool
  | [], _ => true
  | _ :: _, [] => false
  | p :: ps, c :: cs => p = c && startsWithL ps cs

/-- JavaScript `line.replace(pat, repl)` with a string pattern:
replace only the first occurrence of `pat`, leftmost match; if `pat`
does not occur, the line is unchanged. -/
def replaceFirst (pat repl : List Char) : List Char → List Char
  | [] => if startsWithL pat [] then repl else []
  | c :: rest =>
    if startsWithL pat (c :: rest) then repl ++ (c :: rest).drop pat.length
    else c :: replaceFirst pat repl rest

/-- JavaScript `code.split('\n')`: split on line feeds; always at
least one (possibly empty) piece. -/
def splitLines : List Char → List (List Char)
  | [] => [[]]
  | c :: rest =>
    if c = '\n' then [] :: splitLines rest
    else
      match splitLines rest with
      | [] => [[c]]
      | l :: ls => (c :: l) :: ls

/-- JavaScript `lines.join('\n')`. -/
def joinLines : List (List Char) → List Char
  | [] => []
  | [l] => l
  | l :: ls => l ++ '\n' :: joinLines ls

/-- The comment a stripped line is replaced with:
`// [stripped] ${line}`. -/
def strippedComment (line : List Char) : List Char :=
  "// [stripped] ".data ++ line

/-- The regex test `/^export\s*\{/.test(trimmed)` for bare
re-export lines `export { ... }`. -/
def bareReExport (t : List Char) : Bool :=
  startsWithL "export".data t &&
    match (t.drop 6).dropWhile isWS with
    | c :: _ => c = '\x7b'
    | [] => false

/-- The per-line rewrite of `sanitizeForExecution` (executor.ts
lines 74–91), transliterated branch by branch in source order. -/
def sanitizeLine (line : List Char) : List Char :=
  let trimmed := jsTrimStart line
  if startsWithL "import ".data trimmed then strippedComment line
  else if startsWithL "export function ".data trimmed then
    replaceFirst "export function ".data "function ".data line
  else if startsWithL "export async function ".data trimmed then
    replaceFirst "export async function ".data "async function ".data line
  else if startsWithL "export class ".data trimmed then
    replaceFirst "export class ".data "class ".data line
  else if startsWithL "export const ".data trimmed then
    replaceFirst "export const ".data "const ".data line
  else if startsWithL "export let ".data trimmed then
    replaceFirst "export let ".data "let ".data line
  else if startsWithL "export default ".data trimmed then
    replaceFirst "export default ".data [] line
  else if bareReExport trimmed then strippedComment line
  else line

/-- `sanitizeForExecution` (executor.ts lines 71–93): split into
lines, rewrite each line, join back with line feeds. -/
def sanitizeForExecution (code : List Char) : List Char :=
  joinLines ((splitLines code).map sanitizeLine)

/-- The `Promise.race` of the strategy invocation against the timeout
timer (executor.ts lines 127–133).  Which promise settles first is a
fact about wall-clock time, abstracted as `timerFirst`: when the timer
wins the race rejects with `timeoutMessage`, otherwise the invocation's
own outcome is the race's outcome. -/
def raceWithTimeout (timerFirst : Bool) (invocation : Except String JSValue) :
    Except String JSValue :=
  if timerFirst then Except.error timeoutMessage else invocation

/-- The body of `executeStrategy`'s `try` block (executor.ts
lines 104–133): transpile (abstract — the TypeScript compiler is an
external dependency; its outcome, output text or a thrown
`TypeScript transpilation failed`/missing-dependency error, is the
`transpiled` argument), sanitize the output, evaluate the sanitized
text to top-level bindings (abstract — `new Function` on arbitrary
text; a thrown `SyntaxError` or the produced bindings are `envOf`'s
outcome), dispatch on the entry points, and race against the timer. -/
def runTryBlock (transpiled : Except String (List Char))
    (envOf : List Char → Except String StrategyEnv)
    (context : StrategyContext) (timerFirst : Bool) : Except String JSValue :=
  match transpiled with
  | Except.error msg => Except.error msg
  | Except.ok code =>
    match envOf (sanitizeForExecution code) with
    | Except.error msg => Except.error msg
    | Except.ok env => raceWithTimeout timerFirst (dispatch env context)

/-- `executeStrategy` (executor.ts lines 99–152): the `try` block's
value goes through the result validator; any thrown error is caught
and converted to `{signal:'hold', reason:'Execution error: ' + message}`. -/
def executeStrategy (transpiled : Except String (List Char))
    (envOf : List Char → Except String StrategyEnv)
    (context : StrategyContext) (timerFirst : Bool) : JSValue :=
  match runTryBlock transpiled envOf context timerFirst with
  | Except.error msg => holdObj ("Execution error: " ++ msg)
  | Except.ok v => validateResult v

/-- One completed trade row as read by `getCurrentPosition`
(`type` is `'buy'` or `'sell'`; `quantity` and `total` are the parsed
numeric columns). -/
structure LedgerTrade where
  type : String
  quantity : Rat
  total : Rat

/-- The accumulation loop of `getCurrentPosition` (executor.ts
lines 222–233): running `(quantity, totalCost)`, adding the trade's
quantity and total for `'buy'` rows and subtracting them otherwise. -/
def netTotals (trades : List LedgerTrade) : Rat × Rat :=
  trades.foldl
    (fun acc trade =>
      if trade.type = "buy" then (acc.1 + trade.quantity, acc.2 + trade.total)
      else (acc.1 - trade.quantity, acc.2 - trade.total))
    (0, 0)

/-- `getCurrentPosition` (executor.ts lines 200–250), with the
database read abstracted: `trades` is the completed-trade ledger for
(portfolio, asset) in chronological order.  Empty ledger or net
quantity ≤ 0 gives no position; otherwise entry price is accumulated
cost divided by net quantity, with the price/P&L fields zeroed for the
caller to fill in. -/
def getCurrentPosition (trades : List LedgerTrade) (asset : String) : Option Position :=
  if trades.isEmpty then none
  else
    let acc := netTotals trades
    if acc.1 ≤ 0 then none
    else
      some
        { asset := asset
          quantity := acc.1
          entry_price := acc.2 / acc.1
          current_price := 0
          pnl := 0
          pnl_percentage := 0 }

/-- Placeholder candle for the `candles[candles.length - 1]` access,
only ever used when the list is nonempty. -/
def defaultCandle : CandleData :=
  { timestamp := "", open_ := 0, high := 0, low := 0, close := 0, volume := 0 }

/-- The position enrichment in `runStrategy` (executor.ts
lines 303–311): set the current price and derive P&L before attaching
the position to the context. -/
def enrichPosition (currentPrice : Rat) (p : Position) : Position :=
  { p with
      current_price := currentPrice
      pnl := (currentPrice - p.entry_price) * p.quantity
      pnl_percentage := (currentPrice - p.entry_price) / p.entry_price * 100 }

/-- The context assembly of `runStrategy` (executor.ts lines 300–319)
for a nonempty candle list: current price is the close of the last
candle, the position (when present) is enriched with that price. -/
def buildContext (candles : List CandleData) (position : Option Position)
    (parameters : List (String × JSValue)) : StrategyContext :=
  let currentPrice := (candles.getLastD defaultCandle).close
  { candles := candles
    currentPrice := currentPrice
    position := position.map (enrichPosition currentPrice)
    parameters := parameters }

/-- The evaluation cycle `runStrategy` (executor.ts lines 292–345)
with its collaborators abstracted: `candles` is what
`fetchRecentCandles` returned (chronological), `position` what
`getCurrentPosition` returned for the linked portfolio (or `none`),
and the logging/status writes are fire-and-forget and do not affect
the result.  An empty candle list short-circuits to
`{signal:'hold', reason:'No data available'}` before `executeStrategy`
is ever reached. -/
def runStrategy (transpiled : Except String (List Char))
    (envOf : List Char → Except String StrategyEnv) (timerFirst : Bool)
    (candles : List CandleData) (position : Option Position)
    (parameters : List (String × JSValue)) : JSValue :=
  if candles.isEmpty then holdObj "No data available"
  else executeStrategy transpiled envOf (buildContext candles position parameters) timerFirst

/-! Helper lemmas about the text primitives. -/

theorem startsWithL_append (pat rest : List Char) : startsWithL pat (pat ++ rest) = true := by
  induction pat with
  | nil => rfl
  | cons c cs ih => simp [startsWithL, ih]

theorem exists_append_of_startsWithL {pat l : List Char} (h : startsWithL pat l = true) :
    ∃ rest, l = pat ++ rest ∧ rest = l.drop pat.length := by
  induction pat generalizing l with
  | nil => exact ⟨l, rfl, rfl⟩
  | cons c cs ih =>
    cases l with
    | nil => simp [startsWithL] at h
    | cons d ds =>
      rw [startsWithL, Bool.and_eq_true, decide_eq_true_iff] at h
      obtain ⟨rfl, h2⟩ := h
      obtain ⟨rest, hr, hd⟩ := ih h2
      exact ⟨rest, by rw [List.cons_append, ← hr], by simpa using hd⟩

theorem startsWithL_false_of_head_ne {p c : Char} {ps t : List Char} (h : p ≠ c) :
    startsWithL (p :: ps) (c :: t) = false := by
  simp [startsWithL, h]

theorem startsWithL_nil_pat {p : Char} {ps : List Char} :
    startsWithL (p :: ps) [] = false := rfl

theorem startsWithL_same_append (pre pat rest : List Char) :
    startsWithL (pre ++ pat) (pre ++ rest) = startsWithL pat rest := by
  induction pre with
  | nil => rfl
  | cons c cs ih => simp [startsWithL, ih]

theorem jsTrimStart_cons_not_ws {c : Char} {t : List Char} (h : isWS c = false) :
    jsTrimStart (c :: t) = c :: t := by
  simp [jsTrimStart, List.dropWhile, h]

theorem jsTrimStart_append_ws {w t : List Char} (h : ∀ c ∈ w, isWS c = true) :
    jsTrimStart (w ++ t) = jsTrimStart t := by
  induction w with
  | nil => rfl
  | cons c cs ih =>
    have hc : isWS c = true := h c (List.mem_cons_self c cs)
    simp only [List.cons_append, jsTrimStart, List.dropWhile, hc]
    exact ih fun d hd => h d (List.mem_cons_of_mem c hd)

theorem mem_leadingWS_ws {c : Char} {l : List Char} (h : c ∈ leadingWS l) : isWS c = true :=
  List.mem_takeWhile_imp h

theorem leadingWS_append_jsTrimStart (l : List Char) : leadingWS l ++ jsTrimStart l = l :=
  List.takeWhile_append_dropWhile isWS l

theorem replaceFirst_ws_lead {p : Char} (ps repl : List Char) {l : List Char}
    (hp : isWS p = false) (h : startsWithL (p :: ps) (jsTrimStart l) = true) :
    replaceFirst (p :: ps) repl l =
      leadingWS l ++ repl ++ (jsTrimStart l).drop (p :: ps).length := by
  induction l with
  | nil => simp [jsTrimStart, startsWithL] at h
  | cons c t ih =>
    cases hws : isWS c with
    | true =>
      have htrim : jsTrimStart (c :: t) = jsTrimStart t := by
        simp [jsTrimStart, List.dropWhile, hws]
      have hlead : leadingWS (c :: t) = c :: leadingWS t := by
        simp [leadingWS, List.takeWhile, hws]
      rw [htrim] at h
      have hne : startsWithL (p :: ps) (c :: t) = false := by
        apply startsWithL_false_of_head_ne
        intro hpc
        rw [hpc, hws] at hp
        exact absurd hp (by simp)
      rw [replaceFirst, hne, if_neg (by simp), ih h, htrim, hlead]
      simp
    | false =>
      have htrim : jsTrimStart (c :: t) = c :: t := jsTrimStart_cons_not_ws hws
      have hlead : leadingWS (c :: t) = [] := by
        simp [leadingWS, List.takeWhile, hws]
      rw [htrim] at h
      rw [replaceFirst, if_pos (by simp [h]), htrim, hlead]
      simp

theorem mem_replaceFirst {a : Char} {pat repl l : List Char}
    (h : a ∈ replaceFirst pat repl l) : a ∈ repl ∨ a ∈ l := by
  induction l with
  | nil =>
    rw [replaceFirst] at h
    by_cases hs : startsWithL pat [] = true
    · rw [if_pos hs] at h; exact Or.inl h
    · rw [if_neg hs] at h; simp at h
  | cons c t ih =>
    rw [replaceFirst] at h
    by_cases hs : startsWithL pat (c :: t) = true
    · rw [if_pos hs] at h
      rcases List.mem_append.mp h with h1 | h1
      · exact Or.inl h1
      · exact Or.inr (List.drop_subset _ _ h1)
    · rw [if_neg hs] at h
      rcases List.mem_cons.mp h with rfl | h1
      · exact Or.inr (List.mem_cons_self a t)
      · rcases ih h1 with h2 | h2
        · exact Or.inl h2
        · exact Or.inr (List.mem_cons_of_mem c h2)

theorem splitLines_ne_nil (l : List Char) : splitLines l ≠ [] := by
  cases l with
  | nil => simp [splitLines]
  | cons c rest =>
    rw [splitLines]
    by_cases h : c = '\n'
    · rw [if_pos h]; simp
    · rw [if_neg h]
      cases splitLines rest <;> simp

theorem not_newline_of_mem_splitLines {l m : List Char}
    (h : m ∈ splitLines l) : '\n' ∉ m := by
  induction l generalizing m with
  | nil =>
    simp [splitLines] at h
    subst h; simp
  | cons c rest ih =>
    rw [splitLines] at h
    by_cases hc : c = '\n'
    · rw [if_pos hc] at h
      rcases List.mem_cons.mp h with rfl | h1
      · simp
      · exact ih h1
    · rw [if_neg hc] at h
      cases hs : splitLines rest with
      | nil => exact absurd hs (splitLines_ne_nil rest)
      | cons m0 ms =>
        rw [hs] at h
        rcases List.mem_cons.mp h with rfl | h1
        · intro hmem
          rcases List.mem_cons.mp hmem with h2 | h2
          · exact hc h2.symm
          · exact ih (hs ▸ List.mem_cons_self m0 ms) h2
        · exact ih (hs ▸ List.mem_cons_of_mem m0 h1)

theorem splitLines_of_no_newline {l : List Char} (h : '\n' ∉ l) : splitLines l = [l] := by
  induction l with
  | nil => rfl
  | cons c rest ih =>
    have hc : ¬ c = '\n' := fun hcc => h (hcc ▸ List.mem_cons_self c rest)
    have hrest : '\n' ∉ rest := fun hm => h (List.mem_cons_of_mem c hm)
    rw [splitLines, if_neg hc, ih hrest]

theorem splitLines_append_newline {l t : List Char} (h : '\n' ∉ l) :
    splitLines (l ++ '\n' :: t) = l :: splitLines t := by
  induction l with
  | nil => simp [splitLines]
  | cons c rest ih =>
    have hc : ¬ c = '\n' := fun hcc => h (hcc ▸ List.mem_cons_self c rest)
    have hrest : '\n' ∉ rest := fun hm => h (List.mem_cons_of_mem c hm)
    rw [List.cons_append, splitLines, if_neg hc, ih hrest]

theorem splitLines_joinLines {ls : List (List Char)} (hne : ls ≠ [])
    (h : ∀ l ∈ ls, '\n' ∉ l) : splitLines (joinLines ls) = ls := by
  induction ls with
  | nil => exact absurd rfl hne
  | cons l rest ih =>
    cases rest with
    | nil =>
      rw [joinLines]
      exact splitLines_of_no_newline (h l (List.mem_cons_self l []))
    | cons l2 rest2 =>
      rw [joinLines, splitLines_append_newline (h l (List.mem_cons_self l _))]
      · rw [ih (by simp) fun m hm => h m (List.mem_cons_of_mem l hm)]
      · simp

/-! Per-branch behaviour of `sanitizeLine`. -/

theorem startsWithL_pre_false {p c : Char} (pre : List Char) {ps t : List Char} (h : p ≠ c) :
    startsWithL (pre ++ p :: ps) (pre ++ c :: t) = false := by
  rw [startsWithL_same_append]
  exact startsWithL_false_of_head_ne h

theorem bareReExport_elim {t : List Char} (hb : bareReExport t = true) :
    startsWithL "export".data t = true ∧ ∃ u, (t.drop 6).dropWhile isWS = '\x7b' :: u := by
  rw [bareReExport, Bool.and_eq_true] at hb
  obtain ⟨h1, h2⟩ := hb
  refine ⟨h1, ?_⟩
  cases hd : (t.drop 6).dropWhile isWS with
  | nil => rw [hd] at h2; simp at h2
  | cons c u =>
    rw [hd] at h2
    simp only [decide_eq_true_iff] at h2
    exact ⟨u, by rw [h2]⟩

theorem sanitizeLine_import {line : List Char}
    (h : startsWithL "import ".data (jsTrimStart line) = true) :
    sanitizeLine line = strippedComment line := by
  simp only [sanitizeLine, h, if_pos]

theorem sanitizeLine_exportFunction {line : List Char}
    (h : startsWithL "export function ".data (jsTrimStart line) = true) :
    sanitizeLine line =
      leadingWS line ++ "function ".data ++
        (jsTrimStart line).drop "export function ".data.length := by
  obtain ⟨rest, htrim, -⟩ := exists_append_of_startsWithL h
  have h1 : startsWithL "import ".data (jsTrimStart line) = false := by
    rw [htrim, show "import ".data = 'i' :: "mport ".data from rfl,
      show "export function ".data ++ rest = 'e' :: ("xport function ".data ++ rest) from rfl]
    exact startsWithL_false_of_head_ne (by decide)
  simp only [sanitizeLine, h1, h, if_pos, Bool.false_eq_true, if_false]
  exact replaceFirst_ws_lead _ _ (by decide) h

theorem sanitizeLine_exportAsyncFunction {line : List Char}
    (h : startsWithL "export async function ".data (jsTrimStart line) = true) :
    sanitizeLine line =
      leadingWS line ++ "async function ".data ++
        (jsTrimStart line).drop "export async function ".data.length := by
  obtain ⟨rest, htrim, -⟩ := exists_append_of_startsWithL h
  have h1 : startsWithL "import ".data (jsTrimStart line) = false := by
    rw [htrim, show "import ".data = 'i' :: "mport ".data from rfl,
      show "export async function ".data ++ rest
        = 'e' :: ("xport async function ".data ++ rest) from rfl]
    exact startsWithL_false_of_head_ne (by decide)
  have h2 : startsWithL "export function ".data (jsTrimStart line) = false := by
    rw [htrim, show "export function ".data = "export ".data ++ 'f' :: "unction ".data from rfl,
      show "export async function ".data ++ rest
        = "export ".data ++ 'a' :: ("sync function ".data ++ rest) from rfl]
    exact startsWithL_pre_false _ (by decide)
  simp only [sanitizeLine, h1, h2, h, if_pos, Bool.false_eq_true, if_false]
  exact replaceFirst_ws_lead _ _ (by decide) h

theorem sanitizeLine_exportClass {line : List Char}
    (h : startsWithL "export class ".data (jsTrimStart line) = true) :
    sanitizeLine line =
      leadingWS line ++ "class ".data ++
        (jsTrimStart line).drop "export class ".data.length := by
  obtain ⟨rest, htrim, -⟩ := exists_append_of_startsWithL h
  have h1 : startsWithL "import ".data (jsTrimStart line) = false := by
    rw [htrim, show "import ".data = 'i' :: "mport ".data from rfl,
      show "export class ".data ++ rest = 'e' :: ("xport class ".data ++ rest) from rfl]
    exact startsWithL_false_of_head_ne (by decide)
  have h2 : startsWithL "export function ".data (jsTrimStart line) = false := by
    rw [htrim, show "export function ".data = "export ".data ++ 'f' :: "unction ".data from rfl,
      show "export class ".data ++ rest = "export ".data ++ 'c' :: ("lass ".data ++ rest) from rfl]
    exact startsWithL_pre_false _ (by decide)
  have h3 : startsWithL "export async function ".data (jsTrimStart line) = false := by
    rw [htrim,
      show "export async function ".data = "export ".data ++ 'a' :: "sync function ".data from rfl,
      show "export class ".data ++ rest = "export ".data ++ 'c' :: ("lass ".data ++ rest) from rfl]
    exact startsWithL_pre_false _ (by decide)
  simp only [sanitizeLine, h1, h2, h3, h, if_pos, Bool.false_eq_true, if_false]
  exact replaceFirst_ws_lead _ _ (by decide) h

theorem sanitizeLine_exportConst {line : List Char}
    (h : startsWithL "export const ".data (jsTrimStart line) = true) :
    sanitizeLine line =
      leadingWS line ++ "const ".data ++
        (jsTrimStart line).drop "export const ".data.length := by
  obtain ⟨rest, htrim, -⟩ := exists_append_of_startsWithL h
  have h1 : startsWithL "import ".data (jsTrimStart line) = false := by
    rw [htrim, show "import ".data = 'i' :: "mport ".data from rfl,
      show "export const ".data ++ rest = 'e' :: ("xport const ".data ++ rest) from rfl]
    exact startsWithL_false_of_head_ne (by decide)
  have h2 : startsWithL "export function ".data (jsTrimStart line) = false := by
    rw [htrim, show "export function ".data = "export ".data ++ 'f' :: "unction ".data from rfl,
      show "export const ".data ++ rest = "export ".data ++ 'c' :: ("onst ".data ++ rest) from rfl]
    exact startsWithL_pre_false _ (by decide)
  have h3 : startsWithL "export async function ".data (jsTrimStart line) = false := by
    rw [htrim,
      show "export async function ".data = "export ".data ++ 'a' :: "sync function ".data from rfl,
      show "export const ".data ++ rest = "export ".data ++ 'c' :: ("onst ".data ++ rest) from rfl]
    exact startsWithL_pre_false _ (by decide)
  have h4 : startsWithL "export class ".data (jsTrimStart line) = false := by
    rw [htrim, show "export class ".data = "export c".data ++ 'l' :: "ass ".data from rfl,
      show "export const ".data ++ rest = "export c".data ++ 'o' :: ("nst ".data ++ rest) from rfl]
    exact startsWithL_pre_false _ (by decide)
  simp only [sanitizeLine, h1, h2, h3, h4, h, if_pos, Bool.false_eq_true, if_false]
  exact replaceFirst_ws_lead _ _ (by decide) h

theorem sanitizeLine_exportLet {line : List Char}
    (h : startsWithL "export let ".data (jsTrimStart line) = true) :
    sanitizeLine line =
      leadingWS line ++ "let ".data ++
        (jsTrimStart line).drop "export let ".data.length := by
  obtain ⟨rest, htrim, -⟩ := exists_append_of_startsWithL h
  have h1 : startsWithL "import ".data (jsTrimStart line) = false := by
    rw [htrim, show "import ".data = 'i' :: "mport ".data from rfl,
      show "export let ".data ++ rest = 'e' :: ("xport let ".data ++ rest) from rfl]
    exact startsWithL_false_of_head_ne (by decide)
  have h2 : startsWithL "export function ".data (jsTrimStart line) = false := by
    rw [htrim, show "export function ".data = "export ".data ++ 'f' :: "unction ".data from rfl,
      show "export let ".data ++ rest = "export ".data ++ 'l' :: ("et ".data ++ rest) from rfl]
    exact startsWithL_pre_false _ (by decide)
  have h3 : startsWithL "export async function ".data (jsTrimStart line) = false := by
    rw [htrim,
      show "export async function ".data = "export ".data ++ 'a' :: "sync function ".data from rfl,
      show "export let ".data ++ rest = "export ".data ++ 'l' :: ("et ".data ++ rest) from rfl]
    exact startsWithL_pre_false _ (by decide)
  have h4 : startsWithL "export class ".data (jsTrimStart line) = false := by
    rw [htrim, show "export class ".data = "export ".data ++ 'c' :: "lass ".data from rfl,
      show "export let ".data ++ rest = "export ".data ++ 'l' :: ("et ".data ++ rest) from rfl]
    exact startsWithL_pre_false _ (by decide)
  have h5 : startsWithL "export const ".data (jsTrimStart line) = false := by
    rw [htrim, show "export const ".data = "export ".data ++ 'c' :: "onst ".data from rfl,
      show "export let ".data ++ rest = "export ".data ++ 'l' :: ("et ".data ++ rest) from rfl]
    exact startsWithL_pre_false _ (by decide)
  simp only [sanitizeLine, h1, h2, h3, h4, h5, h, if_pos, Bool.false_eq_true, if_false]
  exact replaceFirst_ws_lead _ _ (by decide) h

theorem sanitizeLine_exportDefault {line : List Char}
    (h : startsWithL "export default ".data (jsTrimStart line) = true) :
    sanitizeLine line =
      leadingWS line ++ (jsTrimStart line).drop "export default ".data.length := by
  obtain ⟨rest, htrim, -⟩ := exists_append_of_startsWithL h
  have h1 : startsWithL "import ".data (jsTrimStart line) = false := by
    rw [htrim, show "import ".data = 'i' :: "mport ".data from rfl,
      show "export default ".data ++ rest = 'e' :: ("xport default ".data ++ rest) from rfl]
    exact startsWithL_false_of_head_ne (by decide)
  have h2 : startsWithL "export function ".data (jsTrimStart line) = false := by
    rw [htrim, show "export function ".data = "export ".data ++ 'f' :: "unction ".data from rfl,
      show "export default ".data ++ rest = "export ".data ++ 'd' :: ("efault ".data ++ rest) from rfl]
    exact startsWithL_pre_false _ (by decide)
  have h3 : startsWithL "export async function ".data (jsTrimStart line) = false := by
    rw [htrim,
      show "export async function ".data = "export ".data ++ 'a' :: "sync function ".data from rfl,
      show "export default ".data ++ rest = "export ".data ++ 'd' :: ("efault ".data ++ rest) from rfl]
    exact startsWithL_pre_false _ (by decide)
  have h4 : startsWithL "export class ".data (jsTrimStart line) = false := by
    rw [htrim, show "export class ".data = "export ".data ++ 'c' :: "lass ".data from rfl,
      show "export default ".data ++ rest = "export ".data ++ 'd' :: ("efault ".data ++ rest) from rfl]
    exact startsWithL_pre_false _ (by decide)
  have h5 : startsWithL "export const ".data (jsTrimStart line) = false := by
    rw [htrim, show "export const ".data = "export ".data ++ 'c' :: "onst ".data from rfl,
      show "export default ".data ++ rest = "export ".data ++ 'd' :: ("efault ".data ++ rest) from rfl]
    exact startsWithL_pre_false _ (by decide)
  have h6 : startsWithL "export let ".data (jsTrimStart line) = false := by
    rw [htrim, show "export let ".data = "export ".data ++ 'l' :: "et ".data from rfl,
      show "export default ".data ++ rest = "export ".data ++ 'd' :: ("efault ".data ++ rest) from rfl]
    exact startsWithL_pre_false _ (by decide)
  simp only [sanitizeLine, h1, h2, h3, h4, h5, h6, h, if_pos, Bool.false_eq_true, if_false]
  have := replaceFirst_ws_lead (p := 'e') ("xport default ".data) ([] : List Char)
    (l := line) (by decide) h
  simpa using this

theorem bare_guard_aux {rest r2 : List Char} {k : Char} {kt : List Char}
    (hk : isWS k = false) (hne : k ≠ '\x7b')
    (hr : rest = (' ' :: k :: kt) ++ r2)
    (hbr : ∃ u, rest.dropWhile isWS = '\x7b' :: u) : False := by
  subst hr
  obtain ⟨u, hu⟩ := hbr
  rw [show ((' ' :: k :: kt) ++ r2 : List Char) = ' ' :: k :: (kt ++ r2) from rfl] at hu
  simp only [List.dropWhile_cons] at hu
  rw [if_pos (by decide), if_neg (by simp [hk])] at hu
  exact hne (List.head_eq_of_cons_eq hu)

theorem sanitizeLine_bareReExport {line : List Char}
    (hb : bareReExport (jsTrimStart line) = true) :
    sanitizeLine line = strippedComment line := by
  obtain ⟨hsw, hbrace⟩ := bareReExport_elim hb
  obtain ⟨rest, htrim, -⟩ := exists_append_of_startsWithL hsw
  have hbrace2 : ∃ u, rest.dropWhile isWS = '\x7b' :: u := by
    obtain ⟨u, hu⟩ := hbrace
    refine ⟨u, ?_⟩
    rw [htrim, show (("export".data ++ rest : List Char)).drop 6 = rest from rfl] at hu
    exact hu
  have h1 : startsWithL "import ".data (jsTrimStart line) = false := by
    rw [htrim, show "import ".data = 'i' :: "mport ".data from rfl,
      show "export".data ++ rest = 'e' :: ("xport".data ++ rest) from rfl]
    exact startsWithL_false_of_head_ne (by decide)
  have h2 : startsWithL "export function ".data (jsTrimStart line) = false := by
    rw [htrim,
      show "export function ".data = "export".data ++ (' ' :: 'f' :: "unction ".data) from rfl,
      startsWithL_same_append]
    cases hq : startsWithL (' ' :: 'f' :: "unction ".data) rest with
    | false => rfl
    | true =>
      obtain ⟨r2, hr2, -⟩ := exists_append_of_startsWithL hq
      exact (bare_guard_aux (by decide) (by decide) hr2 hbrace2).elim
  have h3 : startsWithL "export async function ".data (jsTrimStart line) = false := by
    rw [htrim,
      show "export async function ".data
        = "export".data ++ (' ' :: 'a' :: "sync function ".data) from rfl,
      startsWithL_same_append]
    cases hq : startsWithL (' ' :: 'a' :: "sync function ".data) rest with
    | false => rfl
    | true =>
      obtain ⟨r2, hr2, -⟩ := exists_append_of_startsWithL hq
      exact (bare_guard_aux (by decide) (by decide) hr2 hbrace2).elim
  have h4 : startsWithL "export class ".data (jsTrimStart line) = false := by
    rw [htrim,
      show "export class ".data = "export".data ++ (' ' :: 'c' :: "lass ".data) from rfl,
      startsWithL_same_append]
    cases hq : startsWithL (' ' :: 'c' :: "lass ".data) rest with
    | false => rfl
    | true =>
      obtain ⟨r2, hr2, -⟩ := exists_append_of_startsWithL hq
      exact (bare_guard_aux (by decide) (by decide) hr2 hbrace2).elim
  have h5 : startsWithL "export const ".data (jsTrimStart line) = false := by
    rw [htrim,
      show "export const ".data = "export".data ++ (' ' :: 'c' :: "onst ".data) from rfl,
      startsWithL_same_append]
    cases hq : startsWithL (' ' :: 'c' :: "onst ".data) rest with
    | false => rfl
    | true =>
      obtain ⟨r2, hr2, -⟩ := exists_append_of_startsWithL hq
      exact (bare_guard_aux (by decide) (by decide) hr2 hbrace2).elim
  have h6 : startsWithL "export let ".data (jsTrimStart line) = false := by
    rw [htrim,
      show "export let ".data = "export".data ++ (' ' :: 'l' :: "et ".data) from rfl,
      startsWithL_same_append]
    cases hq : startsWithL (' ' :: 'l' :: "et ".data) rest with
    | false => rfl
    | true =>
      obtain ⟨r2, hr2, -⟩ := exists_append_of_startsWithL hq
      exact (bare_guard_aux (by decide) (by decide) hr2 hbrace2).elim
  have h7 : startsWithL "export default ".data (jsTrimStart line) = false := by
    rw [htrim,
      show "export default ".data = "export".data ++ (' ' :: 'd' :: "efault ".data) from rfl,
      startsWithL_same_append]
    cases hq : startsWithL (' ' :: 'd' :: "efault ".data) rest with
    | false => rfl
    | true =>
      obtain ⟨r2, hr2, -⟩ := exists_append_of_startsWithL hq
      exact (bare_guard_aux (by decide) (by decide) hr2 hbrace2).elim
  simp only [sanitizeLine, h1, h2, h3, h4, h5, h6, h7, hb, if_pos, Bool.false_eq_true, if_false]

theorem sanitizeLine_of_no_guard {line : List Char}
    (g1 : startsWithL "import ".data (jsTrimStart line) = false)
    (g2 : startsWithL "export function ".data (jsTrimStart line) = false)
    (g3 : startsWithL "export async function ".data (jsTrimStart line) = false)
    (g4 : startsWithL "export class ".data (jsTrimStart line) = false)
    (g5 : startsWithL "export const ".data (jsTrimStart line) = false)
    (g6 : startsWithL "export let ".data (jsTrimStart line) = false)
    (g7 : startsWithL "export default ".data (jsTrimStart line) = false)
    (g8 : bareReExport (jsTrimStart line) = false) :
    sanitizeLine line = line := by
  simp only [sanitizeLine, g1, g2, g3, g4, g5, g6, g7, g8, Bool.false_eq_true, if_false]

theorem sanitizeLine_eq_self_of_head {line : List Char} {c : Char} {t : List Char}
    (hc : jsTrimStart line = c :: t) (hi : c ≠ 'i') (he : c ≠ 'e') :
    sanitizeLine line = line := by
  have g8 : bareReExport (jsTrimStart line) = false := by
    rw [hc, bareReExport, show "export".data = 'e' :: "xport".data from rfl,
      startsWithL_false_of_head_ne (Ne.symm he)]
    rfl
  refine sanitizeLine_of_no_guard ?_ ?_ ?_ ?_ ?_ ?_ ?_ g8
  · rw [hc, show "import ".data = 'i' :: "mport ".data from rfl]
    exact startsWithL_false_of_head_ne (Ne.symm hi)
  · rw [hc, show "export function ".data = 'e' :: "xport function ".data from rfl]
    exact startsWithL_false_of_head_ne (Ne.symm he)
  · rw [hc, show "export async function ".data = 'e' :: "xport async function ".data from rfl]
    exact startsWithL_false_of_head_ne (Ne.symm he)
  · rw [hc, show "export class ".data = 'e' :: "xport class ".data from rfl]
    exact startsWithL_false_of_head_ne (Ne.symm he)
  · rw [hc, show "export const ".data = 'e' :: "xport const ".data from rfl]
    exact startsWithL_false_of_head_ne (Ne.symm he)
  · rw [hc, show "export let ".data = 'e' :: "xport let ".data from rfl]
    exact startsWithL_false_of_head_ne (Ne.symm he)
  · rw [hc, show "export default ".data = 'e' :: "xport default ".data from rfl]
    exact startsWithL_false_of_head_ne (Ne.symm he)

theorem sanitizeLine_eq_self_of_trim_nil {line : List Char}
    (hc : jsTrimStart line = []) : sanitizeLine line = line := by
  refine sanitizeLine_of_no_guard ?_ ?_ ?_ ?_ ?_ ?_ ?_ ?_ <;> rw [hc] <;> rfl

theorem jsTrimStart_leadingWS_append (line t : List Char) :
    jsTrimStart (leadingWS line ++ t) = jsTrimStart t :=
  jsTrimStart_append_ws fun _ hc => mem_leadingWS_ws hc

theorem sanitizeLine_idem {line : List Char}
    (hnd : startsWithL "export default ".data (jsTrimStart line) = false) :
    sanitizeLine (sanitizeLine line) = sanitizeLine line := by
  cases h1 : startsWithL "import ".data (jsTrimStart line) with
  | true =>
    rw [sanitizeLine_import h1]
    exact sanitizeLine_eq_self_of_head
      (t := "/ [stripped] ".data ++ line)
      (by rw [show strippedComment line = '/' :: ("/ [stripped] ".data ++ line) from rfl]
          exact jsTrimStart_cons_not_ws (by decide))
      (by decide) (by decide)
  | false =>
  cases h2 : startsWithL "export function ".data (jsTrimStart line) with
  | true =>
    rw [sanitizeLine_exportFunction h2, List.append_assoc]
    exact sanitizeLine_eq_self_of_head
      (by rw [jsTrimStart_leadingWS_append,
           show ("function ".data
               ++ (jsTrimStart line).drop "export function ".data.length : List Char)
             = 'f' :: ("unction ".data
               ++ (jsTrimStart line).drop "export function ".data.length) from rfl]
          exact jsTrimStart_cons_not_ws (by decide))
      (by decide) (by decide)
  | false =>
  cases h3 : startsWithL "export async function ".data (jsTrimStart line) with
  | true =>
    rw [sanitizeLine_exportAsyncFunction h3, List.append_assoc]
    exact sanitizeLine_eq_self_of_head
      (by rw [jsTrimStart_leadingWS_append,
           show ("async function ".data
               ++ (jsTrimStart line).drop "export async function ".data.length : List Char)
             = 'a' :: ("sync function ".data
               ++ (jsTrimStart line).drop "export async function ".data.length) from rfl]
          exact jsTrimStart_cons_not_ws (by decide))
      (by decide) (by decide)
  | false =>
  cases h4 : startsWithL "export class ".data (jsTrimStart line) with
  | true =>
    rw [sanitizeLine_exportClass h4, List.append_assoc]
    exact sanitizeLine_eq_self_of_head
      (by rw [jsTrimStart_leadingWS_append,
           show ("class ".data
               ++ (jsTrimStart line).drop "export class ".data.length : List Char)
             = 'c' :: ("lass ".data
               ++ (jsTrimStart line).drop "export class ".data.length) from rfl]
          exact jsTrimStart_cons_not_ws (by decide))
      (by decide) (by decide)
  | false =>
  cases h5 : startsWithL "export const ".data (jsTrimStart line) with
  | true =>
    rw [sanitizeLine_exportConst h5, List.append_assoc]
    exact sanitizeLine_eq_self_of_head
      (by rw [jsTrimStart_leadingWS_append,
           show ("const ".data
               ++ (jsTrimStart line).drop "export const ".data.length : List Char)
             = 'c' :: ("onst ".data
               ++ (jsTrimStart line).drop "export const ".data.length) from rfl]
          exact jsTrimStart_cons_not_ws (by decide))
      (by decide) (by decide)
  | false =>
  cases h6 : startsWithL "export let ".data (jsTrimStart line) with
  | true =>
    rw [sanitizeLine_exportLet h6, List.append_assoc]
    exact sanitizeLine_eq_self_of_head
      (by rw [jsTrimStart_leadingWS_append,
           show ("let ".data
               ++ (jsTrimStart line).drop "export let ".data.length : List Char)
             = 'l' :: ("et ".data
               ++ (jsTrimStart line).drop "export let ".data.length) from rfl]
          exact jsTrimStart_cons_not_ws (by decide))
      (by decide) (by decide)
  | false =>
  cases h8 : bareReExport (jsTrimStart line) with
  | true =>
    rw [sanitizeLine_bareReExport h8]
    exact sanitizeLine_eq_self_of_head
      (t := "/ [stripped] ".data ++ line)
      (by rw [show strippedComment line = '/' :: ("/ [stripped] ".data ++ line) from rfl]
          exact jsTrimStart_cons_not_ws (by decide))
      (by decide) (by decide)
  | false =>
    rw [sanitizeLine_of_no_guard h1 h2 h3 h4 h5 h6 hnd h8]
    exact sanitizeLine_of_no_guard h1 h2 h3 h4 h5 h6 hnd h8

theorem not_newline_sanitizeLine {l : List Char} (h : '\n' ∉ l) : '\n' ∉ sanitizeLine l := by
  have hstrip : '\n' ∉ strippedComment l := by
    rw [strippedComment]
    intro hm
    rcases List.mem_append.mp hm with h1 | h1
    · exact absurd h1 (by decide)
    · exact h h1
  have hrf : ∀ pat repl : List Char, '\n' ∉ repl → '\n' ∉ replaceFirst pat repl l := by
    intro pat repl hr hm
    rcases mem_replaceFirst hm with h1 | h1
    · exact hr h1
    · exact h h1
  simp only [sanitizeLine]
  split_ifs <;>
    first
      | exact hstrip
      | exact h
      | exact hrf _ _ (by decide)

theorem splitLines_sanitizeForExecution (code : List Char) :
    splitLines (sanitizeForExecution code) = (splitLines code).map sanitizeLine := by
  rw [sanitizeForExecution]
  refine splitLines_joinLines
    (fun hmap => splitLines_ne_nil code (List.map_eq_nil_iff.mp hmap)) ?_
  intro m hm
  obtain ⟨l, hl, rfl⟩ := List.mem_map.mp hm
  exact not_newline_sanitizeLine (not_newline_of_mem_splitLines hl)

/-- C5 (counterexample): the claim that the output of
`sanitizeForExecution` contains no top-level `import`/`export` tokens,
and that every bare re-export line is blanked, is false: the lines
`export var x = 1;` and the star re-export `export * from "m";` match
none of the rewrite patterns, pass through unchanged, and still start
with a top-level `export` token. -/
theorem sanitizeForExecution_strips_counterexample :
    sanitizeForExecution "export var x = 1;".data = "export var x = 1;".data
    ∧ startsWithL "export ".data
        (jsTrimStart (sanitizeForExecution "export var x = 1;".data)) = true
    ∧ sanitizeForExecution "export * from \x22m\x22;".data
        = "export * from \x22m\x22;".data := by
  refine ⟨by decide, by decide, by decide⟩

/-- C5 (amended): `sanitizeForExecution` rewrites line by line; a line
whose trimmed form starts with `import ` is blanked to a
`// [stripped] ` comment, a line starting with `export function ` /
`export async function ` / `export class ` / `export const ` /
`export let ` has that first occurrence replaced by its non-exported
equivalent, a line starting with `export default ` has that prefix
deleted, and a bare `export {` re-export line is blanked to a comment.
Export forms outside this list (such as `export var` or `export * from`)
pass through unchanged, so the output may still contain top-level
export tokens. -/
theorem sanitizeForExecution_line_behaviour :
    ∀ code line : List Char,
      splitLines (sanitizeForExecution code) = (splitLines code).map sanitizeLine
      ∧ (startsWithL "import ".data (jsTrimStart line) = true →
          sanitizeLine line = strippedComment line)
      ∧ (startsWithL "export function ".data (jsTrimStart line) = true →
          sanitizeLine line = leadingWS line ++ "function ".data ++
            (jsTrimStart line).drop "export function ".data.length)
      ∧ (startsWithL "export async function ".data (jsTrimStart line) = true →
          sanitizeLine line = leadingWS line ++ "async function ".data ++
            (jsTrimStart line).drop "export async function ".data.length)
      ∧ (startsWithL "export class ".data (jsTrimStart line) = true →
          sanitizeLine line = leadingWS line ++ "class ".data ++
            (jsTrimStart line).drop "export class ".data.length)
      ∧ (startsWithL "export const ".data (jsTrimStart line) = true →
          sanitizeLine line = leadingWS line ++ "const ".data ++
            (jsTrimStart line).drop "export const ".data.length)
      ∧ (startsWithL "export let ".data (jsTrimStart line) = true →
          sanitizeLine line = leadingWS line ++ "let ".data ++
            (jsTrimStart line).drop "export let ".data.length)
      ∧ (startsWithL "export default ".data (jsTrimStart line) = true →
          sanitizeLine line = leadingWS line ++
            (jsTrimStart line).drop "export default ".data.length)
      ∧ (bareReExport (jsTrimStart line) = true →
          sanitizeLine line = strippedComment line) := by
  intro code line
  exact ⟨splitLines_sanitizeForExecution code,
    fun h => sanitizeLine_import h,
    fun h => sanitizeLine_exportFunction h,
    fun h => sanitizeLine_exportAsyncFunction h,
    fun h => sanitizeLine_exportClass h,
    fun h => sanitizeLine_exportConst h,
    fun h => sanitizeLine_exportLet h,
    fun h => sanitizeLine_exportDefault h,
    fun h => sanitizeLine_bareReExport h⟩

/-- C5 (witness): the amended per-line behaviour evaluated on concrete
lines of each kind. -/
theorem sanitizeForExecution_line_behaviour_witness :
    sanitizeLine "import a;".data = strippedComment "import a;".data
    ∧ sanitizeLine "  export const a = 1;".data =
        leadingWS "  export const a = 1;".data ++ "const ".data ++
          (jsTrimStart "  export const a = 1;".data).drop "export const ".data.length :=
  ⟨(sanitizeForExecution_line_behaviour [] "import a;".data).2.1 (by decide),
   (sanitizeForExecution_line_behaviour [] "  export const a = 1;".data).2.2.2.2.2.1 (by decide)⟩

/-- C6 (counterexample): `sanitizeForExecution` is not idempotent: on
the single line `export default export function f()` the first pass
deletes the `export default ` prefix, uncovering an `export function `
declaration that only the second pass rewrites. -/
theorem sanitize_idempotence_counterexample :
    sanitizeForExecution (sanitizeForExecution
        "export default export function f()".data)
      ≠ sanitizeForExecution "export default export function f()".data := by
  decide

/-- C6 (amended): `sanitizeForExecution` is idempotent on every input
none of whose lines has a trimmed form starting with `export default `
(the prefix-deletion branch is the only one that can uncover a fresh
module-syntax pattern; every other branch produces a line fixed by the
rewrite). -/
theorem sanitize_idempotent_no_export_default (code : List Char)
    (h : ∀ l ∈ splitLines code,
      startsWithL "export default ".data (jsTrimStart l) = false) :
    sanitizeForExecution (sanitizeForExecution code) = sanitizeForExecution code := by
  have e : ∀ x : List Char,
      sanitizeForExecution x = joinLines ((splitLines x).map sanitizeLine) := fun _ => rfl
  rw [e (sanitizeForExecution code), splitLines_sanitizeForExecution, List.map_map, e code]
  congr 1
  exact List.map_congr_left fun l hl => sanitizeLine_idem (h l hl)

/-- C6 (witness): idempotence evaluated on a concrete two-line input
with an import and an export declaration. -/
theorem sanitize_idempotent_no_export_default_witness :
    sanitizeForExecution (sanitizeForExecution "import x;\nexport const a = 1;".data)
      = sanitizeForExecution "import x;\nexport const a = 1;".data :=
  sanitize_idempotent_no_export_default "import x;\nexport const a = 1;".data (by decide)

/-! Helper lemmas about the validator and the executor. -/

theorem wellFormedResult_holdObj (reason : String) :
    wellFormedResult (holdObj reason) = true := by
  simp [wellFormedResult, holdObj, truthy, typeofJS, getField, lookupField, signalIncluded]

theorem validateResult_wellFormed (v : JSValue) :
    wellFormedResult (validateResult v) = true := by
  simp only [validateResult]
  split_ifs with h1 h2
  · exact wellFormedResult_holdObj _
  · exact wellFormedResult_holdObj _
  · simp only [Bool.or_eq_true, Bool.not_eq_true', decide_eq_true_iff, not_or,
      Bool.not_eq_true] at h1 h2
    have h3 : signalIncluded (getField v "signal") = true := by
      cases hs : signalIncluded (getField v "signal") with
      | true => rfl
      | false => exact absurd hs h2
    simp [wellFormedResult, h1.1, not_not.mp h1.2, h3]

theorem wellFormed_executeStrategy (transpiled : Except String (List Char))
    (envOf : List Char → Except String StrategyEnv)
    (context : StrategyContext) (timerFirst : Bool) :
    wellFormedResult (executeStrategy transpiled envOf context timerFirst) = true := by
  rw [executeStrategy]
  cases runTryBlock transpiled envOf context timerFirst with
  | error msg => exact wellFormedResult_holdObj _
  | ok v => exact validateResult_wellFormed v

/-- C1: `executeStrategy` is total (the Lean embedding is a total
function, mirroring that the source never lets an exception escape) —
it always returns a well-formed `StrategyResult` — and every thrown
error of the try block (transpilation failure, missing entry point,
strategy runtime error, timeout, or any other exception) is caught and
converted to `{signal:'hold', reason:'Execution error: ' + message}`. -/
theorem executeStrategy_total_and_catches :
    ∀ (transpiled : Except String (List Char))
      (envOf : List Char → Except String StrategyEnv)
      (context : StrategyContext) (timerFirst : Bool),
      wellFormedResult (executeStrategy transpiled envOf context timerFirst) = true
      ∧ ∀ msg, runTryBlock transpiled envOf context timerFirst = Except.error msg →
          executeStrategy transpiled envOf context timerFirst
            = holdObj ("Execution error: " ++ msg) := by
  intro transpiled envOf context timerFirst
  refine ⟨wellFormed_executeStrategy transpiled envOf context timerFirst, fun msg h => ?_⟩
  rw [executeStrategy, h]

/-- C1 (witness): a transpilation error `boom` is converted to the
hold result with reason `Execution error: boom`. -/
theorem executeStrategy_total_and_catches_witness :
    executeStrategy (Except.error "boom") (fun _ => Except.ok ⟨none, none, none⟩)
        { candles := [], currentPrice := 0, position := none, parameters := [] } false
      = holdObj ("Execution error: " ++ "boom") :=
  (executeStrategy_total_and_catches (Except.error "boom")
    (fun _ => Except.ok ⟨none, none, none⟩)
    { candles := [], currentPrice := 0, position := none, parameters := [] } false).2 "boom" rfl

/-- C2: the `signal` field of every value `executeStrategy` returns is
one of the three strings `buy`, `sell`, `hold`; a raw value that is an
actual object with a `signal` outside that set is replaced by
`{signal:'hold', reason:'Invalid signal value'}`, and a raw value that
is not an object (including `null`, which fails the truthiness check)
is replaced by `{signal:'hold', reason:'Invalid strategy result'}`. -/
theorem signal_enum_closure :
    (∀ (transpiled : Except String (List Char))
       (envOf : List Char → Except String StrategyEnv)
       (context : StrategyContext) (timerFirst : Bool),
       signalIncluded
         (getField (executeStrategy transpiled envOf context timerFirst) "signal") = true)
    ∧ (∀ v : JSValue, ¬(truthy v = true ∧ typeofJS v = "object") →
        validateResult v = holdObj "Invalid strategy result")
    ∧ (∀ v : JSValue, truthy v = true → typeofJS v = "object" →
        signalIncluded (getField v "signal") = false →
        validateResult v = holdObj "Invalid signal value") := by
  refine ⟨fun transpiled envOf context timerFirst => ?_, fun v hv => ?_, fun v h1 h2 h3 => ?_⟩
  · have hw := wellFormed_executeStrategy transpiled envOf context timerFirst
    simp only [wellFormedResult, Bool.and_eq_true] at hw
    exact hw.2
  · simp only [validateResult]
    rw [if_pos]
    simp only [Bool.or_eq_true, Bool.not_eq_true', decide_eq_true_iff]
    by_cases ht : truthy v = true
    · exact Or.inr fun hobj => hv ⟨ht, hobj⟩
    · exact Or.inl (Bool.not_eq_true _ ▸ ht)
  · simp only [validateResult]
    rw [if_neg (by simp [h1, h2]), if_pos (by simp [h3])]

/-- C2 (witness): a string result and an object with signal `moon`
are both replaced by the corresponding hold results. -/
theorem signal_enum_closure_witness :
    validateResult (JSValue.vStr "buy") = holdObj "Invalid strategy result"
    ∧ validateResult (JSValue.vObj [("signal", JSValue.vStr "moon")])
        = holdObj "Invalid signal value" :=
  ⟨signal_enum_closure.2.1 (JSValue.vStr "buy") (by simp [typeofJS]),
   signal_enum_closure.2.2 (JSValue.vObj [("signal", JSValue.vStr "moon")])
     rfl rfl (by decide)⟩

/-- C3: the dispatcher checks `tradingStrategy`, then `evaluate`, then
`strategy`, in that order, and calls the first one defined as a
function with the context as sole argument. -/
theorem dispatch_priority :
    ∀ (env : StrategyEnv) (context : StrategyContext),
      (∀ f, env.tradingStrategy = some f → dispatch env context = f context)
      ∧ (env.tradingStrategy = none → ∀ f, env.evaluate = some f →
          dispatch env context = f context)
      ∧ (env.tradingStrategy = none → env.evaluate = none →
          ∀ f, env.strategy = some f → dispatch env context = f context) := by
  intro env context
  refine ⟨fun f hf => ?_, fun h0 f hf => ?_, fun h0 h1 f hf => ?_⟩
  · rw [dispatch, hf]
  · rw [dispatch, h0, hf]
  · rw [dispatch, h0, h1, hf]

/-- C3 (witness): with both `tradingStrategy` and `evaluate` defined
the former is called; with only `strategy` defined it is called. -/
theorem dispatch_priority_witness :
    dispatch
        { tradingStrategy := some fun _ => Except.ok (JSValue.vStr "TS"),
          evaluate := some fun _ => Except.ok (JSValue.vStr "EV"),
          strategy := none }
        { candles := [], currentPrice := 0, position := none, parameters := [] }
      = Except.ok (JSValue.vStr "TS")
    ∧ dispatch
        { tradingStrategy := none, evaluate := none,
          strategy := some fun _ => Except.ok (JSValue.vStr "ST") }
        { candles := [], currentPrice := 0, position := none, parameters := [] }
      = Except.ok (JSValue.vStr "ST") :=
  ⟨(dispatch_priority _ _).1 _ rfl, (dispatch_priority _ _).2.2 rfl rfl _ rfl⟩

/-- C4 (counterexample): the timeout budget is the fixed source
literal 5000 ms and the race, when the timer wins, fails with the
fixed message `Strategy execution timeout` — `executeStrategy` takes
only the source text and the context, so, contrary to the claim, no
caller can override the budget per invocation. -/
theorem timeout_budget_counterexample :
    strategyTimeoutMs = 5000
    ∧ raceWithTimeout true (Except.ok (JSValue.vStr "x"))
        = Except.error "Strategy execution timeout" :=
  ⟨rfl, rfl⟩

/-- C4 (amended): the timeout guard races the strategy invocation
against a timer with the fixed (non-overridable) budget of 5000 ms;
when the timer elapses first the race fails with the message
`Strategy execution timeout`, which the outer catch folds into a hold
result with reason `Execution error: Strategy execution timeout`. -/
theorem timeout_fixed_budget :
    strategyTimeoutMs = 5000
    ∧ (∀ invocation, raceWithTimeout true invocation = Except.error timeoutMessage)
    ∧ (∀ (envOf : List Char → Except String StrategyEnv) (context : StrategyContext)
         (code : List Char) (env : StrategyEnv),
         envOf (sanitizeForExecution code) = Except.ok env →
         executeStrategy (Except.ok code) envOf context true
           = holdObj ("Execution error: " ++ timeoutMessage)) := by
  refine ⟨rfl, fun invocation => rfl, fun envOf context code env henv => ?_⟩
  rw [executeStrategy, runTryBlock, henv]
  simp only [raceWithTimeout, if_pos]

/-- C4 (witness): the timeout path evaluated on a concrete invocation. -/
theorem timeout_fixed_budget_witness :
    executeStrategy (Except.ok []) (fun _ => Except.ok ⟨none, none, none⟩)
        { candles := [], currentPrice := 0, position := none, parameters := [] } true
      = holdObj ("Execution error: " ++ timeoutMessage) :=
  timeout_fixed_budget.2.2 (fun _ => Except.ok ⟨none, none, none⟩)
    { candles := [], currentPrice := 0, position := none, parameters := [] } [] _ rfl

/-- C9: when none of `tradingStrategy`, `evaluate`, `strategy` is
defined as a function, the dispatcher throws, and `executeStrategy`
returns a hold result whose reason starts with `Execution error: ` and
mentions that no valid strategy function was found. -/
theorem no_entry_point_hold :
    ∀ (envOf : List Char → Except String StrategyEnv) (context : StrategyContext)
      (code : List Char) (env : StrategyEnv),
      env.tradingStrategy = none → env.evaluate = none → env.strategy = none →
      envOf (sanitizeForExecution code) = Except.ok env →
      dispatch env context = Except.error noEntryPointMessage
      ∧ executeStrategy (Except.ok code) envOf context false
          = holdObj ("Execution error: " ++ noEntryPointMessage)
      ∧ startsWithL "Execution error: ".data
          ("Execution error: " ++ noEntryPointMessage).data = true
      ∧ ("Execution error: " ++ noEntryPointMessage)
          = "Execution error: No valid strategy function found. Define tradingStrategy, evaluate, or strategy function." := by
  intro envOf context code env h1 h2 h3 henv
  have hd : dispatch env context = Except.error noEntryPointMessage := by
    rw [dispatch, h1, h2, h3]
  refine ⟨hd, ?_, by decide, rfl⟩
  rw [executeStrategy, runTryBlock, henv]
  simp only [raceWithTimeout, Bool.false_eq_true, if_false, hd]

/-- C9 (witness): the no-entry-point path evaluated on the empty
environment. -/
theorem no_entry_point_hold_witness :
    executeStrategy (Except.ok []) (fun _ => Except.ok ⟨none, none, none⟩)
        { candles := [], currentPrice := 0, position := none, parameters := [] } false
      = holdObj ("Execution error: " ++ noEntryPointMessage) :=
  (no_entry_point_hold (fun _ => Except.ok ⟨none, none, none⟩)
    { candles := [], currentPrice := 0, position := none, parameters := [] }
    [] ⟨none, none, none⟩ rfl rfl rfl rfl).2.1

/-- C10: a falsy raw result — in particular `null` — is routed by the
truthiness check to the `Invalid strategy result` substitution, even
though `typeof null` is the string `object`, so it never reaches the
signal-membership check. -/
theorem null_result_invalid :
    (∀ (v : JSValue) (transpiled : Except String (List Char))
       (envOf : List Char → Except String StrategyEnv)
       (context : StrategyContext) (timerFirst : Bool),
       truthy v = false →
       runTryBlock transpiled envOf context timerFirst = Except.ok v →
       executeStrategy transpiled envOf context timerFirst
         = holdObj "Invalid strategy result")
    ∧ typeofJS JSValue.vNull = "object"
    ∧ truthy JSValue.vNull = false := by
  refine ⟨fun v transpiled envOf context timerFirst hv hrun => ?_, rfl, rfl⟩
  rw [executeStrategy, hrun]
  simp only [validateResult]
  rw [if_pos (by simp [hv])]

/-- C10 (witness): a strategy returning `null` yields
`{signal:'hold', reason:'Invalid strategy result'}`. -/
theorem null_result_invalid_witness :
    executeStrategy (Except.ok [])
        (fun _ => Except.ok ⟨some fun _ => Except.ok JSValue.vNull, none, none⟩)
        { candles := [], currentPrice := 0, position := none, parameters := [] } false
      = holdObj "Invalid strategy result" :=
  null_result_invalid.1 JSValue.vNull (Except.ok [])
    (fun _ => Except.ok ⟨some fun _ => Except.ok JSValue.vNull, none, none⟩)
    { candles := [], currentPrice := 0, position := none, parameters := [] } false rfl rfl

/-- C7: `getCurrentPosition` replays the ledger in order, adding
quantity and total for buys and subtracting them otherwise; it returns
no position when the ledger is empty or the net quantity is ≤ 0, and
otherwise a position whose entry price is accumulated cost over net
quantity.  In particular `[buy 1 @ 100, buy 1 @ 200]` gives quantity 2
at entry price 150, and `[buy 2 @ 100, sell 2 @ 150]` gives no
position. -/
theorem getCurrentPosition_ledger :
    ∀ (asset : String) (trades : List LedgerTrade),
      getCurrentPosition [] asset = none
      ∧ ((netTotals trades).1 ≤ 0 → getCurrentPosition trades asset = none)
      ∧ (trades ≠ [] → 0 < (netTotals trades).1 →
          getCurrentPosition trades asset = some
            { asset := asset
              quantity := (netTotals trades).1
              entry_price := (netTotals trades).2 / (netTotals trades).1
              current_price := 0
              pnl := 0
              pnl_percentage := 0 })
      ∧ getCurrentPosition
          [{ type := "buy", quantity := 1, total := 100 },
           { type := "buy", quantity := 1, total := 200 }] asset
          = some { asset := asset, quantity := 2, entry_price := 150,
                   current_price := 0, pnl := 0, pnl_percentage := 0 }
      ∧ getCurrentPosition
          [{ type := "buy", quantity := 2, total := 200 },
           { type := "sell", quantity := 2, total := 300 }] asset = none := by
  intro asset trades
  refine ⟨rfl, fun hle => ?_, fun hne hpos => ?_, ?_, ?_⟩
  · cases trades with
    | nil => rfl
    | cons t ts =>
      simp only [getCurrentPosition, List.isEmpty_cons, Bool.false_eq_true, if_false]
      rw [if_pos hle]
  · cases trades with
    | nil => exact absurd rfl hne
    | cons t ts =>
      simp only [getCurrentPosition, List.isEmpty_cons, Bool.false_eq_true, if_false]
      rw [if_neg (not_le.mpr hpos)]
  · have h1 : (netTotals
        [{ type := "buy", quantity := 1, total := 100 },
         { type := "buy", quantity := 1, total := 200 }] : Rat × Rat) = (2, 300) := by
      norm_num [netTotals]
    simp only [getCurrentPosition, List.isEmpty_cons, Bool.false_eq_true, if_false, h1]
    norm_num
  · have h2 : (netTotals
        [{ type := "buy", quantity := 2, total := 200 },
         { type := "sell", quantity := 2, total := 300 }] : Rat × Rat) = (0, -100) := by
      simp only [netTotals, List.foldl]
      rw [if_neg (show ¬("sell" = "buy") from by decide)]
      norm_num
    simp only [getCurrentPosition, List.isEmpty_cons, Bool.false_eq_true, if_false, h2]
    norm_num

/-- C7 (witness): the conditional clauses evaluated on concrete
one-trade ledgers. -/
theorem getCurrentPosition_ledger_witness :
    getCurrentPosition [{ type := "sell", quantity := 1, total := 100 }] "btc" = none
    ∧ getCurrentPosition [{ type := "buy", quantity := 4, total := 100 }] "btc"
        = some { asset := "btc",
                 quantity := (netTotals [{ type := "buy", quantity := 4, total := 100 }]).1,
                 entry_price := (netTotals [{ type := "buy", quantity := 4, total := 100 }]).2
                   / (netTotals [{ type := "buy", quantity := 4, total := 100 }]).1,
                 current_price := 0, pnl := 0, pnl_percentage := 0 } :=
  ⟨(getCurrentPosition_ledger "btc" [{ type := "sell", quantity := 1, total := 100 }]).2.1
     (by simp only [netTotals, List.foldl]
         rw [if_neg (show ¬("sell" = "buy") from by decide)]
         norm_num),
   (getCurrentPosition_ledger "btc" [{ type := "buy", quantity := 4, total := 100 }]).2.2.1
     (by simp) (by norm_num [netTotals])⟩

/-- C8: with an empty candle list `runStrategy` returns
`{signal:'hold', reason:'No data available'}` without invoking the
sandbox (the result does not depend on the transpiler, the code or the
entry points); with a nonempty list the built context's `currentPrice`
is the close of the last candle and the sandbox is invoked on that
context. -/
theorem runStrategy_no_data_and_price :
    ∀ (transpiled : Except String (List Char))
      (envOf : List Char → Except String StrategyEnv) (timerFirst : Bool)
      (candles : List CandleData) (position : Option Position)
      (parameters : List (String × JSValue)),
      (candles = [] →
        runStrategy transpiled envOf timerFirst candles position parameters
          = holdObj "No data available")
      ∧ ∀ h : candles ≠ [],
          (buildContext candles position parameters).currentPrice
            = (candles.getLast h).close
          ∧ runStrategy transpiled envOf timerFirst candles position parameters
              = executeStrategy transpiled envOf
                  (buildContext candles position parameters) timerFirst := by
  intro transpiled envOf timerFirst candles position parameters
  constructor
  · rintro rfl
    rfl
  · intro h
    constructor
    · show (candles.getLastD defaultCandle).close = (candles.getLast h).close
      rw [List.getLastD_eq_getLast?, List.getLast?_eq_getLast_of_ne_nil h, Option.getD_some]
    · rw [runStrategy, if_neg (by simp [h])]

/-- C8 (witness): the empty-candle short-circuit and the current-price
derivation evaluated on concrete inputs. -/
theorem runStrategy_no_data_witness :
    runStrategy (Except.error "e") (fun _ => Except.error "e") false [] none []
      = holdObj "No data available"
    ∧ (buildContext
          [{ timestamp := "t", open_ := 1, high := 2, low := 0, close := 5, volume := 3 }]
          none []).currentPrice
        = (([{ timestamp := "t", open_ := 1, high := 2, low := 0, close := 5, volume := 3 }]
            : List CandleData).getLast (by simp)).close :=
  ⟨(runStrategy_no_data_and_price (Except.error "e") (fun _ => Except.error "e")
      false [] none []).1 rfl,
   ((runStrategy_no_data_and_price (Except.error "e") (fun _ => Except.error "e")
      false [{ timestamp := "t", open_ := 1, high := 2, low := 0, close := 5, volume := 3 }]
      none []).2 (by simp)).1⟩

end LiveEngine
